import Mathlib

/-
Shallow embedding of the inventory/order core of src/quanao.py.

Modelling conventions:
* the four PostgreSQL tables (products, orders, order_items, stock_movements)
  become four lists of rows inside a `State`; an SQL INSERT appends to the
  corresponding list and an SQL UPDATE maps over it;
* `uuid.uuid4()` is modelled by a counter `nextId` in the state (its only
  observable property in the program is freshness of the generated ids);
* `datetime.utcnow()` is modelled by a counter `now` in the state, bumped on
  every call, so that "two calls" versus "one shared call" is observable;
* the REAL columns (price, cost_price, total) are modelled by `Rat`, the
  INTEGER columns (stock, qty, change) by `Int`;
* a Python `raise ValueError(...)` becomes an `Except.error` carrying the
  data interpolated into the message, and the unchanged database state.
-/

namespace Quanao

structure Product where
  id : Nat
  name : String
  price : Rat
  cost_price : Rat
  stock : Int
  image_path : String
  notes : String
  deriving DecidableEq

structure Order where
  id : Nat
  created_at : Nat
  total : Rat
  deriving DecidableEq

structure OrderItem where
  id : Nat
  order_id : Nat
  product_id : Nat
  qty : Int
  price : Rat
  cost_price : Rat
  deriving DecidableEq

structure StockMovement where
  id : Nat
  product_id : Nat
  change : Int
  reason : String
  timestamp : Nat
  deriving DecidableEq

/-- One entry of the `items` list passed to `create_order`
(a Python dict with keys product_id and qty). -/
structure ItemInput where
  product_id : Nat
  qty : Int
  deriving DecidableEq

/-- The whole database plus the id generator and the clock. -/
structure State where
  products : List Product
  orders : List Order
  order_items : List OrderItem
  stock_movements : List StockMovement
  nextId : Nat
  now : Nat
  deriving DecidableEq

/-- The two `raise ValueError(...)` shapes of the core, with the data that the
Python code interpolates into the message. -/
inductive ShopError where
  | notFound (product_id : Nat)
  | insufficientStock (name : String) (available requested : Int)
  deriving DecidableEq

/-- Models `uuid.uuid4()`: returns a fresh identifier. -/
def fresh (s : State) : Nat × State :=
  (s.nextId, { s with nextId := s.nextId + 1 })

/-- Models `datetime.utcnow()`: returns the current instant and advances time. -/
def tick (s : State) : Nat × State :=
  (s.now, { s with now := s.now + 1 })

/-- Models `products_df[products_df['id'] == product_id]` followed by `.iloc[0]`:
the first row whose id matches. -/
def findProduct (products : List Product) (product_id : Nat) : Option Product :=
  products.find? (fun p => p.id == product_id)

/-- Models `UPDATE products SET stock = :new_stock WHERE id = :id`. -/
def setStock (s : State) (product_id : Nat) (new_stock : Int) : State :=
  { s with products := s.products.map (fun q =>
      if q.id == product_id then { q with stock := new_stock } else q) }

/-- Models `UPDATE products SET stock = stock - :qty WHERE id = :product_id`
(the in-database decrement used by `create_order`). -/
def decStock (s : State) (product_id : Nat) (qty : Int) : State :=
  { s with products := s.products.map (fun q =>
      if q.id == product_id then { q with stock := q.stock - qty } else q) }

/-- Embeds `add_stock_movement` (src/quanao.py lines 228-263): look the product
up, optionally write back `current_stock + change`, then append one ledger row. -/
def add_stock_movement (s : State) (product_id : Nat) (change : Int)
    (reason : String) (skip_product_update : Bool) : Except ShopError Nat × State :=
  match findProduct s.products product_id with
  | none => (.error (.notFound product_id), s)
  | some p =>
    let new_stock := p.stock + change
    let s1 := if skip_product_update then s else setStock s product_id new_stock
    let (new_movement_id, s2) := fresh s1
    let (t, s3) := tick s2
    let s4 := { s3 with stock_movements :=
        s3.stock_movements ++ [⟨new_movement_id, product_id, change, reason, t⟩] }
    (.ok new_movement_id, s4)

/-- Embeds `add_product` (src/quanao.py lines 143-178): insert the product row
with its initial stock baked in, then record the seeding movement through the
ledger-only path (`skip_product_update=True`).  The image file handling is
abstracted to the stored reference string. -/
def add_product (s : State) (name : String) (price cost_price : Rat) (stock : Int)
    (notes image_path : String) : (Nat × String) × State :=
  let (new_product_id, s1) := fresh s
  let s2 := { s1 with products :=
      s1.products ++ [⟨new_product_id, name, price, cost_price, stock, image_path, notes⟩] }
  let s3 := (add_stock_movement s2 new_product_id stock "Initial / Import" true).2
  ((new_product_id, name), s3)

/-- Embeds `update_product` (src/quanao.py lines 180-226): metadata/pricing
edit of one product row.  The image-blob filesystem calls are abstracted away;
only the stored reference string is tracked. -/
def update_product (s : State) (product_id : Nat) (name : String)
    (price cost_price : Rat) (notes : String)
    (image_file : Option String) (remove_image : Bool) :
    Except ShopError (Nat × String) × State :=
  match findProduct s.products product_id with
  | none => (.error (.notFound product_id), s)
  | some p =>
    let old_image_path := p.image_path
    let after_remove := if remove_image && old_image_path != "" then "" else old_image_path
    let img_path_update := match image_file with
      | some path => path
      | none => after_remove
    let s1 := { s with products := s.products.map (fun q =>
        if q.id == product_id then
          { q with name := name, price := price, cost_price := cost_price,
                   notes := notes, image_path := img_path_update }
        else q) }
    (.ok (product_id, name), s1)

/-- Embeds pass 1 of `create_order` (src/quanao.py lines 271-284): scan the
items in input order against the loaded snapshot; a missing product or a
quantity above the snapshot stock aborts with the corresponding error. -/
def validate (products0 : List Product) : List ItemInput → Option ShopError
  | [] => none
  | it :: rest =>
    match findProduct products0 it.product_id with
    | none => some (.notFound it.product_id)
    | some p =>
      if p.stock < it.qty then some (.insufficientStock p.name p.stock it.qty)
      else validate products0 rest

/-- Embeds pass 2 of `create_order` (src/quanao.py lines 293-336): for each
item in input order, decrement the product stock in the database, insert one
order line snapshotting price and cost_price from the pre-order snapshot
`products0`, accumulate the total, and insert one "Sale" ledger row stamped
with the shared instant `t`.  The `none` branch is unreachable when pass 1
succeeded (the Python code would raise an IndexError there). -/
def processItems (products0 : List Product) (t order_id : Nat) :
    List ItemInput → State → Rat → State × Rat
  | [], s, total => (s, total)
  | it :: rest, s, total =>
    match findProduct products0 it.product_id with
    | none => processItems products0 t order_id rest s total
    | some p =>
      let s1 := decStock s it.product_id it.qty
      let (new_item_id, s2) := fresh s1
      let s3 := { s2 with order_items :=
          s2.order_items ++ [⟨new_item_id, order_id, it.product_id, it.qty, p.price, p.cost_price⟩] }
      let total1 := total + p.price * (it.qty : Rat)
      let (new_movement_id, s4) := fresh s3
      let s5 := { s4 with stock_movements :=
          s4.stock_movements ++ [⟨new_movement_id, it.product_id, -it.qty, "Sale", t⟩] }
      processItems products0 t order_id rest s5 total1

/-- Embeds `create_order` (src/quanao.py lines 266-351): validate every item
against the snapshot first; on success generate the order id, take one shared
timestamp, run the mutation pass, and append the order header last. -/
def create_order (s : State) (items : List ItemInput) :
    Except ShopError (Nat × Rat) × State :=
  let products0 := s.products
  match validate products0 items with
  | some e => (.error e, s)
  | none =>
    let (new_order_id, s1) := fresh s
    let (order_created_at, s2) := tick s1
    let (s3, total) := processItems products0 order_created_at new_order_id items s2 0
    let s4 := { s3 with orders := s3.orders ++ [⟨new_order_id, order_created_at, total⟩] }
    (.ok (new_order_id, total), s4)

/-- The three mutating core operations a caller can issue (`adjustStock` is
`add_stock_movement` on its default, non-skipping path). -/
inductive Op where
  | addProduct (name : String) (price cost_price : Rat) (stock : Int) (notes image_path : String)
  | adjustStock (product_id : Nat) (delta : Int) (reason : String)
  | placeOrder (items : List ItemInput)
  deriving DecidableEq

def applyOp (s : State) : Op → State
  | .addProduct name price cost_price stock notes image_path =>
      (add_product s name price cost_price stock notes image_path).2
  | .adjustStock product_id delta reason =>
      (add_stock_movement s product_id delta reason false).2
  | .placeOrder items => (create_order s items).2

def runOps (s : State) (ops : List Op) : State := ops.foldl applyOp s

def emptyState : State := ⟨[], [], [], [], 0, 0⟩

/-- Sum of the `change` column over the movements of one product. -/
def movementSum (ms : List StockMovement) (product_id : Nat) : Int :=
  match ms with
  | [] => 0
  | m :: rest => (if m.product_id == product_id then m.change else 0) + movementSum rest product_id

/-- Total quantity the items list requests for one product. -/
def qtyFor (items : List ItemInput) (product_id : Nat) : Int :=
  match items with
  | [] => 0
  | it :: rest => (if it.product_id == product_id then it.qty else 0) + qtyFor rest product_id

/-- Selling price of a product in a snapshot (0 if absent, an unreachable
default under validation). -/
def priceOf (products0 : List Product) (product_id : Nat) : Rat :=
  match findProduct products0 product_id with
  | some p => p.price
  | none => 0

/-- Cost price of a product in a snapshot (0 if absent). -/
def costOf (products0 : List Product) (product_id : Nat) : Rat :=
  match findProduct products0 product_id with
  | some p => p.cost_price
  | none => 0

/-- The accumulated order total: sum over the items of price times qty, prices
read from the pre-order snapshot. -/
def itemsTotal (products0 : List Product) : List ItemInput → Rat
  | [] => 0
  | it :: rest => priceOf products0 it.product_id * (it.qty : Rat) + itemsTotal products0 rest

/-- The order lines `create_order` appends for `items`, with ids `b`,
`b + 2`, `b + 4`, ... -/
def newItemsFor (products0 : List Product) (order_id : Nat) :
    List ItemInput → Nat → List OrderItem
  | [], _ => []
  | it :: rest, b =>
    ⟨b, order_id, it.product_id, it.qty,
      priceOf products0 it.product_id, costOf products0 it.product_id⟩
      :: newItemsFor products0 order_id rest (b + 2)

/-- The "Sale" ledger rows `create_order` appends for `items`, with ids
`b + 1`, `b + 3`, `b + 5`, ... -/
def newMovementsFor (t : Nat) : List ItemInput → Nat → List StockMovement
  | [], _ => []
  | it :: rest, b =>
    ⟨b + 1, it.product_id, -it.qty, "Sale", t⟩ :: newMovementsFor t rest (b + 2)

def sumRat {α : Type} (f : α → Rat) : List α → Rat
  | [] => 0
  | x :: xs => f x + sumRat f xs

/-- Sum of the denormalized `total` column over the order headers. -/
def ordersTotal (orders : List Order) : Rat := sumRat (fun o => o.total) orders

/-- Sum of qty times price over the order lines. -/
def itemsRevenue (items : List OrderItem) : Rat :=
  sumRat (fun oi => (oi.qty : Rat) * oi.price) items

/-- Column labels of `pd.merge(left, right, ...)`: a label present in both
frames gets the corresponding suffix, any other keeps its name; the result
carries the left frame's columns and then the right frame's. -/
def mergeColumns (left right : List String) (lsuf rsuf : String) : List String :=
  left.map (fun c => if right.contains c then c ++ lsuf else c) ++
    right.map (fun c => if left.contains c then c ++ rsuf else c)

/-- `DataFrame.rename(columns=...)`: labels found in the mapping are replaced,
all others (and mapping keys matching no column) are left alone. -/
def renameColumns (m : List (String × String)) (cols : List String) : List String :=
  cols.map (fun c =>
    match m.find? (fun kv => kv.1 == c) with
    | some kv => kv.2
    | none => c)

/-- Columns of the order_items table (src/quanao.py lines 72-81). -/
def order_items_columns : List String :=
  ["id", "order_id", "product_id", "qty", "price", "cost_price"]

/-- Columns selected from orders in the first merge (line 658). -/
def orders_selected_columns : List String := ["id", "created_at"]

/-- Columns selected from products in the second merge (line 660). -/
def products_selected_columns : List String := ["id", "name", "cost_price"]

/-- Columns of `df_merged` after the two merges of src/quanao.py lines
658-661: the first merge overlaps only on `id` (giving id_item / id_order),
so the line items' `cost_price` is still unsuffixed when the second merge,
whose suffixes are `('_merged', '_product')`, renames the overlapping pair to
cost_price_merged / cost_price_product. -/
def dfMergedColumns : List String :=
  mergeColumns
    (mergeColumns order_items_columns orders_selected_columns "_item" "_order")
    products_selected_columns "_merged" "_product"

/-- Columns after the rename of line 664. -/
def dfColumnsAfterRename : List String :=
  renameColumns
    [("id_order", "Order ID"), ("created_at", "Ngày tạo"),
     ("name", "Tên sản phẩm"), ("cost_price_product", "cost_price_product")]
    dfMergedColumns

/-- `df[label]` at the label level: `none` when the column exists, `some
label` for the KeyError pandas raises when it does not. -/
def getColErr (cols : List String) (label : String) : Option String :=
  if cols.contains label then none else some label

/-- The first KeyError among a sequence of column accesses. -/
def firstErr : List (Option String) → Option String
  | [] => none
  | some e :: _ => some e
  | none :: rest => firstErr rest

/-- Embeds the statistics computation of src/quanao.py lines 663-681 at the
column level: the `df_merged[...]` reads in program order (line 667 reads
the renamed date, line 668 reads qty and price, line 671 reads qty and
cost_price_item, line 673 reads the two computed columns, lines 680-681 read
Order ID and the revenue column for `total_revenue`), each raising KeyError
if its label is absent, each assignment adding a label.  The result is the
first KeyError, or `none` when every read up to and including the
`total_revenue` sum of line 681 succeeds. -/
def statsPipeline : Option String :=
  firstErr
    [getColErr dfColumnsAfterRename "Ngày tạo",
     getColErr (dfColumnsAfterRename ++ ["Ngày"]) "qty",
     getColErr (dfColumnsAfterRename ++ ["Ngày"]) "price",
     getColErr (dfColumnsAfterRename ++ ["Ngày", "Tổng tiền Bán Item"]) "qty",
     getColErr (dfColumnsAfterRename ++ ["Ngày", "Tổng tiền Bán Item"]) "cost_price_item",
     getColErr (dfColumnsAfterRename ++ ["Ngày", "Tổng tiền Bán Item", "Tổng Vốn Item"])
       "Tổng tiền Bán Item",
     getColErr (dfColumnsAfterRename ++ ["Ngày", "Tổng tiền Bán Item", "Tổng Vốn Item"])
       "Tổng Vốn Item",
     getColErr (dfColumnsAfterRename ++
       ["Ngày", "Tổng tiền Bán Item", "Tổng Vốn Item", "Lợi nhuận Gộp Item"]) "Order ID",
     getColErr (dfColumnsAfterRename ++
       ["Ngày", "Tổng tiền Bán Item", "Tổng Vốn Item", "Lợi nhuận Gộp Item"])
       "Tổng tiền Bán Item"]

/-- The statistics page (src/quanao.py lines 647-681): with no orders or no
order lines it only shows an info message (line 654); otherwise it builds
`df_merged` and performs the column reads, stopping at the first KeyError. -/
def reportStats (s : State) : Option String :=
  if s.orders.isEmpty || s.order_items.isEmpty then none else statsPipeline

/-- The rows of `l` have pairwise distinct keys (models primary-key uniqueness,
guaranteed here by uuid freshness). -/
def distinctBy {α : Type} (key : α → Nat) (l : List α) : Prop :=
  List.Pairwise (fun a b => key a ≠ key b) l

/-- Well-formedness of a database state: primary keys are distinct and below
the id counter, order lines reference existing orders and products, every
product's stock agrees with its ledger, and the denormalized order totals
agree with the line items. -/
def WF (s : State) : Prop :=
  distinctBy (fun p : Product => p.id) s.products ∧
  (∀ p ∈ s.products, p.id < s.nextId) ∧
  (∀ m ∈ s.stock_movements, m.product_id < s.nextId) ∧
  distinctBy (fun o : Order => o.id) s.orders ∧
  (∀ o ∈ s.orders, o.id < s.nextId) ∧
  (∀ oi ∈ s.order_items,
    (∃ o ∈ s.orders, o.id = oi.order_id) ∧ (∃ p ∈ s.products, p.id = oi.product_id)) ∧
  (∀ p ∈ s.products, p.stock = movementSum s.stock_movements p.id) ∧
  ordersTotal s.orders = itemsRevenue s.order_items

/-- A store with one product, as left by the spec's add-product scenario
(Shirt, price 100, cost 60, stock 10). -/
def sampleStore : State :=
  ⟨[⟨0, "Shirt", 100, 60, 10, "", ""⟩], [], [],
   [⟨1, 0, 10, "Initial / Import", 0⟩], 2, 1⟩

/-- A store with one Shirt at stock 7 (the spec's post-sale scenario state). -/
def sevenState : State :=
  ⟨[⟨0, "Shirt", 100, 60, 7, "", ""⟩], [], [], [], 1, 4⟩

/-- A store with one product "P" at stock 1. -/
def mixedState : State :=
  ⟨[⟨0, "P", 100, 60, 1, "", ""⟩], [], [], [], 1, 0⟩

/-- A store with one product "P" at stock 3. -/
def dupState : State :=
  ⟨[⟨0, "P", 100, 60, 3, "", ""⟩], [], [], [], 1, 0⟩

/-- A store with two products at positive stock. -/
def twoState : State :=
  ⟨[⟨0, "A", 10, 5, 4, "", ""⟩, ⟨1, "B", 20, 8, 2, "", ""⟩], [], [], [], 2, 0⟩

/-- A sample operation sequence: seed a product, then record shrinkage. -/
def opsSample : List Op :=
  [.addProduct "Shirt" 100 60 10 "" "", .adjustStock 0 (-2) "Damaged"]

/-! ### Generic list helpers -/

theorem map_id_of {α : Type} (f : α → α) :
    ∀ (l : List α), (∀ a ∈ l, f a = a) → l.map f = l := by
  intro l
  induction l with
  | nil => intro _; rfl
  | cons x xs ih =>
    intro h
    rw [List.map_cons, h x (List.mem_cons_self x xs), ih]
    intro a ha
    exact h a (List.mem_cons_of_mem x ha)

theorem map_ext_of {α β : Type} (f g : α → β) :
    ∀ (l : List α), (∀ a ∈ l, f a = g a) → l.map f = l.map g := by
  intro l
  induction l with
  | nil => intro _; rfl
  | cons x xs ih =>
    intro h
    rw [List.map_cons, List.map_cons, h x (List.mem_cons_self x xs), ih]
    intro a ha
    exact h a (List.mem_cons_of_mem x ha)

theorem find?_append_singleton_isSome {α : Type} (l : List α) (x : α) (p : α → Bool)
    (hx : p x = true) : ∃ y, (l ++ [x]).find? p = some y := by
  induction l with
  | nil => exact ⟨x, by simp [List.find?, hx]⟩
  | cons a as ih =>
    cases ha : p a
    · simpa [List.find?_cons, ha] using ih
    · exact ⟨a, by simp [List.find?_cons, ha]⟩

theorem sumRat_append {α : Type} (f : α → Rat) (l₁ l₂ : List α) :
    sumRat f (l₁ ++ l₂) = sumRat f l₁ + sumRat f l₂ := by
  induction l₁ with
  | nil => simp [sumRat]
  | cons x xs ih => simp [sumRat, ih]; ring

theorem movementSum_append (ms₁ ms₂ : List StockMovement) (pid : Nat) :
    movementSum (ms₁ ++ ms₂) pid = movementSum ms₁ pid + movementSum ms₂ pid := by
  induction ms₁ with
  | nil => simp [movementSum]
  | cons m rest ih => simp [movementSum, ih]; ring

theorem movementSum_of_no_match (ms : List StockMovement) (pid : Nat)
    (h : ∀ m ∈ ms, m.product_id ≠ pid) : movementSum ms pid = 0 := by
  induction ms with
  | nil => rfl
  | cons m rest ih =>
    have hm : (m.product_id == pid) = false := by
      simp [h m (List.mem_cons_self m rest)]
    simp [movementSum, hm]
    exact ih (fun x hx => h x (List.mem_cons_of_mem m hx))

/-! ### Closed forms of the operations -/

theorem add_stock_movement_none (s : State) (pid : Nat) (d : Int) (r : String)
    (skip : Bool) (h : findProduct s.products pid = none) :
    add_stock_movement s pid d r skip = (.error (.notFound pid), s) := by
  simp [add_stock_movement, h]

theorem add_stock_movement_found (s : State) (pid : Nat) (d : Int) (r : String) (p : Product)
    (h : findProduct s.products pid = some p) :
    add_stock_movement s pid d r false =
      (.ok s.nextId,
       { s with
          products := s.products.map (fun q =>
            if q.id == pid then { q with stock := p.stock + d } else q),
          stock_movements := s.stock_movements ++ [⟨s.nextId, pid, d, r, s.now⟩],
          nextId := s.nextId + 1,
          now := s.now + 1 }) := by
  simp [add_stock_movement, h, setStock, fresh, tick]

theorem add_stock_movement_skip (s : State) (pid : Nat) (d : Int) (r : String) (p : Product)
    (h : findProduct s.products pid = some p) :
    add_stock_movement s pid d r true =
      (.ok s.nextId,
       { s with
          stock_movements := s.stock_movements ++ [⟨s.nextId, pid, d, r, s.now⟩],
          nextId := s.nextId + 1,
          now := s.now + 1 }) := by
  simp [add_stock_movement, h, fresh, tick]

theorem add_product_eq (s : State) (name : String) (price cost_price : Rat) (stock : Int)
    (notes image_path : String) :
    add_product s name price cost_price stock notes image_path =
      ((s.nextId, name),
       { s with
          products := s.products ++ [⟨s.nextId, name, price, cost_price, stock, image_path, notes⟩],
          stock_movements := s.stock_movements ++
            [⟨s.nextId + 1, s.nextId, stock, "Initial / Import", s.now⟩],
          nextId := s.nextId + 2,
          now := s.now + 1 }) := by
  obtain ⟨p, hp⟩ := find?_append_singleton_isSome s.products
    ⟨s.nextId, name, price, cost_price, stock, image_path, notes⟩
    (fun q => q.id == s.nextId) (by simp)
  have hfind : findProduct
      (s.products ++ [⟨s.nextId, name, price, cost_price, stock, image_path, notes⟩])
      s.nextId = some p := hp
  simp only [add_product, fresh]
  rw [add_stock_movement_skip _ _ _ _ p (by simpa using hfind)]

theorem validate_cons_some (products0 : List Product) (it : ItemInput)
    (rest : List ItemInput) (p : Product) (hf : findProduct products0 it.product_id = some p)
    (hq : ¬ p.stock < it.qty) :
    validate products0 (it :: rest) = validate products0 rest := by
  simp [validate, hf, hq]

theorem validate_none_forall (products0 : List Product) :
    ∀ (items : List ItemInput), validate products0 items = none →
      ∀ it ∈ items, ∃ p, findProduct products0 it.product_id = some p ∧ ¬ p.stock < it.qty := by
  intro items
  induction items with
  | nil => intro _ it hit; cases hit
  | cons x rest ih =>
    intro h it hit
    cases hf : findProduct products0 x.product_id with
    | none => rw [validate, hf] at h; cases h
    | some p =>
      by_cases hq : p.stock < x.qty
      · rw [validate, hf] at h; simp [hq] at h
      · rcases List.mem_cons.mp hit with hx | hx
        · exact ⟨p, by rw [hx]; exact hf, by rw [hx]; exact hq⟩
        · exact ih (by rw [validate_cons_some products0 x rest p hf hq] at h; exact h) it hx

theorem processItems_eq (products0 : List Product) (t oid : Nat) :
    ∀ (items : List ItemInput) (s : State) (total : Rat),
      validate products0 items = none →
      processItems products0 t oid items s total =
        ({ s with
            products := s.products.map (fun q =>
              { q with stock := q.stock - qtyFor items q.id }),
            order_items := s.order_items ++ newItemsFor products0 oid items s.nextId,
            stock_movements := s.stock_movements ++ newMovementsFor t items s.nextId,
            nextId := s.nextId + 2 * items.length },
         total + itemsTotal products0 items) := by
  intro items
  induction items with
  | nil =>
    intro s total _
    have hmap : s.products.map (fun q => { q with stock := q.stock - qtyFor [] q.id }) =
        s.products := by
      apply map_id_of
      intro q _
      simp [qtyFor]
    simp [processItems, newItemsFor, newMovementsFor, itemsTotal, hmap]
  | cons it rest ih =>
    intro s total h
    obtain ⟨p, hf, hq⟩ := validate_none_forall products0 (it :: rest) h it
      (List.mem_cons_self it rest)
    have hrest : validate products0 rest = none := by
      rw [validate_cons_some products0 it rest p hf hq] at h; exact h
    simp only [processItems, hf, decStock, fresh, tick]
    rw [ih _ _ hrest]
    have hprice : priceOf products0 it.product_id = p.price := by simp [priceOf, hf]
    have hcost : costOf products0 it.product_id = p.cost_price := by simp [costOf, hf]
    have hn : s.nextId + 1 + 1 = s.nextId + 2 := by omega
    simp only [newItemsFor, newMovementsFor, itemsTotal, qtyFor, hprice, hcost,
      List.length_cons, List.map_map, List.append_assoc, List.singleton_append,
      List.cons_append, List.nil_append, hn, Prod.mk.injEq, State.mk.injEq]
    refine ⟨⟨?_, trivial, trivial, trivial, by omega, trivial⟩, by ring⟩
    apply map_ext_of
    intro q _
    by_cases hid : q.id = it.product_id
    · have h1 : (q.id == it.product_id) = true := beq_iff_eq.mpr hid
      have h2 : (it.product_id == q.id) = true := beq_iff_eq.mpr hid.symm
      simp [Function.comp, h1, h2]
      omega
    · have h1 : (q.id == it.product_id) = false := beq_eq_false_iff_ne.mpr hid
      have h2 : (it.product_id == q.id) = false := beq_eq_false_iff_ne.mpr (Ne.symm hid)
      simp [Function.comp, h1, h2]

theorem create_order_error (s : State) (items : List ItemInput) (e : ShopError)
    (h : validate s.products items = some e) :
    create_order s items = (.error e, s) := by
  simp [create_order, h]

theorem create_order_eq (s : State) (items : List ItemInput)
    (h : validate s.products items = none) :
    create_order s items =
      (.ok (s.nextId, itemsTotal s.products items),
       { s with
          products := s.products.map (fun q =>
            { q with stock := q.stock - qtyFor items q.id }),
          orders := s.orders ++ [⟨s.nextId, s.now, itemsTotal s.products items⟩],
          order_items := s.order_items ++ newItemsFor s.products s.nextId items (s.nextId + 1),
          stock_movements := s.stock_movements ++ newMovementsFor s.now items (s.nextId + 1),
          nextId := s.nextId + 1 + 2 * items.length,
          now := s.now + 1 }) := by
  simp only [create_order, h, fresh, tick]
  rw [processItems_eq s.products s.now s.nextId items _ 0 h]
  simp

/-! ### Key distinctness -/

theorem distinctBy_append_singleton {α : Type} (key : α → Nat) (l : List α) (x : α)
    (h : distinctBy key l) (hx : ∀ a ∈ l, key a ≠ key x) : distinctBy key (l ++ [x]) := by
  refine List.pairwise_append.mpr ⟨h, List.pairwise_singleton _ _, ?_⟩
  intro a ha b hb
  rcases List.mem_singleton.mp hb with rfl
  exact hx a ha

theorem distinctBy_map {α β : Type} (key : α → Nat) (key2 : β → Nat) (f : α → β)
    (hf : ∀ a, key2 (f a) = key a) (l : List α) (h : distinctBy key l) :
    distinctBy key2 (l.map f) := by
  rw [distinctBy, List.pairwise_map]
  exact h.imp (fun hab => by rw [hf, hf]; exact hab)

theorem mem_key_find_unique {α : Type} (key : α → Nat) :
    ∀ (l : List α), distinctBy key l → ∀ (p q : α) (v : Nat),
      l.find? (fun a => key a == v) = some p → q ∈ l → key q = v → q = p := by
  intro l
  induction l with
  | nil => intro _ p q v hf; cases hf
  | cons a as ih =>
    intro h p q v hf hq hkey
    cases ha : (key a == v) with
    | true =>
      simp only [List.find?, ha] at hf
      rcases List.mem_cons.mp hq with rfl | hq
      · exact Option.some.injEq _ _ ▸ hf
      · exfalso
        have hav : key a = v := by simpa using ha
        exact (List.pairwise_cons.mp h).1 q hq (hav.trans hkey.symm)
    | false =>
      simp only [List.find?, ha] at hf
      rcases List.mem_cons.mp hq with rfl | hq
      · exfalso
        have : key q ≠ v := by simpa using ha
        exact this hkey
      · exact ih (List.pairwise_cons.mp h).2 p q v hf hq hkey

/-! ### Facts about the rows appended by a successful order -/

theorem itemsRevenue_newItemsFor (products0 : List Product) (oid : Nat) :
    ∀ (items : List ItemInput) (b : Nat),
      itemsRevenue (newItemsFor products0 oid items b) = itemsTotal products0 items := by
  intro items
  induction items with
  | nil => intro b; rfl
  | cons it rest ih =>
    intro b
    simp only [newItemsFor, itemsRevenue, sumRat, itemsTotal] at *
    rw [ih]
    ring

theorem movementSum_newMovementsFor (t : Nat) :
    ∀ (items : List ItemInput) (b pid : Nat),
      movementSum (newMovementsFor t items b) pid = -(qtyFor items pid) := by
  intro items
  induction items with
  | nil => intro b pid; simp [newMovementsFor, movementSum, qtyFor]
  | cons it rest ih =>
    intro b pid
    simp only [newMovementsFor, movementSum, qtyFor]
    rw [ih]
    by_cases hid : it.product_id = pid
    · simp [hid]; ring
    · simp [hid]

theorem mem_newItemsFor (products0 : List Product) (oid : Nat) :
    ∀ (items : List ItemInput) (b : Nat) (oi : OrderItem),
      oi ∈ newItemsFor products0 oid items b →
      oi.order_id = oid ∧ ∃ it ∈ items, oi.product_id = it.product_id := by
  intro items
  induction items with
  | nil => intro b oi h; cases h
  | cons it rest ih =>
    intro b oi h
    rcases List.mem_cons.mp h with rfl | h
    · exact ⟨rfl, it, List.mem_cons_self it rest, rfl⟩
    · obtain ⟨h1, x, hx, h2⟩ := ih (b + 2) oi h
      exact ⟨h1, x, List.mem_cons_of_mem it hx, h2⟩

theorem mem_newMovementsFor (t : Nat) :
    ∀ (items : List ItemInput) (b : Nat) (m : StockMovement),
      m ∈ newMovementsFor t items b →
      (∃ it ∈ items, m.product_id = it.product_id ∧ m.change = -it.qty) ∧
        m.reason = "Sale" ∧ m.timestamp = t := by
  intro items
  induction items with
  | nil => intro b m h; cases h
  | cons it rest ih =>
    intro b m h
    rcases List.mem_cons.mp h with rfl | h
    · exact ⟨⟨it, List.mem_cons_self it rest, rfl, rfl⟩, rfl, rfl⟩
    · obtain ⟨⟨x, hx, h1, h2⟩, h3, h4⟩ := ih (b + 2) m h
      exact ⟨⟨x, List.mem_cons_of_mem it hx, h1, h2⟩, h3, h4⟩

theorem length_newItemsFor (products0 : List Product) (oid : Nat) :
    ∀ (items : List ItemInput) (b : Nat),
      (newItemsFor products0 oid items b).length = items.length := by
  intro items
  induction items with
  | nil => intro b; rfl
  | cons it rest ih => intro b; simp [newItemsFor, ih]

theorem length_newMovementsFor (t : Nat) :
    ∀ (items : List ItemInput) (b : Nat),
      (newMovementsFor t items b).length = items.length := by
  intro items
  induction items with
  | nil => intro b; rfl
  | cons it rest ih => intro b; simp [newMovementsFor, ih]

theorem ordersTotal_append (os : List Order) (o : Order) :
    ordersTotal (os ++ [o]) = ordersTotal os + o.total := by
  rw [ordersTotal, sumRat_append]
  simp [sumRat, ordersTotal]

theorem itemsRevenue_append (l₁ l₂ : List OrderItem) :
    itemsRevenue (l₁ ++ l₂) = itemsRevenue l₁ + itemsRevenue l₂ :=
  sumRat_append _ l₁ l₂

/-! ### The reachable-state invariant -/

theorem WF_emptyState : WF emptyState := by
  refine ⟨List.Pairwise.nil, ?_, ?_, List.Pairwise.nil, ?_, ?_, ?_, rfl⟩ <;>
    intro x hx <;> cases hx

theorem WF_add_product (s : State) (name : String) (price cost_price : Rat) (stock : Int)
    (notes image_path : String) (hw : WF s) :
    WF (add_product s name price cost_price stock notes image_path).2 := by
  obtain ⟨hA, hB, hC, hD, hE, hF, hG, hH⟩ := hw
  rw [add_product_eq]
  dsimp only
  refine ⟨?_, ?_, ?_, hD, ?_, ?_, ?_, hH⟩
  · exact distinctBy_append_singleton _ _ _ hA (fun a ha => Nat.ne_of_lt (hB a ha))
  · intro p hp
    rcases List.mem_append.mp hp with hp | hp
    · exact Nat.lt_trans (hB p hp) (show s.nextId < s.nextId + 2 by omega)
    · rcases List.mem_singleton.mp hp with rfl
      simp
  · intro m hm
    rcases List.mem_append.mp hm with hm | hm
    · exact Nat.lt_trans (hC m hm) (show s.nextId < s.nextId + 2 by omega)
    · rcases List.mem_singleton.mp hm with rfl
      simp
  · intro o ho
    exact Nat.lt_trans (hE o ho) (show s.nextId < s.nextId + 2 by omega)
  · intro oi hoi
    obtain ⟨ho, p, hp, hpid⟩ := hF oi hoi
    exact ⟨ho, p, List.mem_append_left _ hp, hpid⟩
  · intro p hp
    rcases List.mem_append.mp hp with hp | hp
    · rw [movementSum_append]
      have hne : (s.nextId == p.id) = false :=
        beq_eq_false_iff_ne.mpr (Nat.ne_of_gt (hB p hp))
      simp [movementSum, hne]
      exact hG p hp
    · rcases List.mem_singleton.mp hp with rfl
      rw [movementSum_append]
      have hz : movementSum s.stock_movements s.nextId = 0 :=
        movementSum_of_no_match _ _ (fun m hm => Nat.ne_of_lt (hC m hm))
      simp [movementSum, hz]

theorem WF_add_stock_movement (s : State) (pid : Nat) (d : Int) (r : String) (hw : WF s) :
    WF (add_stock_movement s pid d r false).2 := by
  obtain ⟨hA, hB, hC, hD, hE, hF, hG, hH⟩ := hw
  cases hfind : findProduct s.products pid with
  | none =>
    rw [add_stock_movement_none s pid d r false hfind]
    exact ⟨hA, hB, hC, hD, hE, hF, hG, hH⟩
  | some p =>
    rw [add_stock_movement_found s pid d r p hfind]
    dsimp only
    have hpmem : p ∈ s.products := List.mem_of_find?_eq_some hfind
    have hpid : p.id = pid := by simpa using List.find?_some hfind
    have hid : ∀ q : Product,
        (if q.id == pid then { q with stock := p.stock + d } else q).id = q.id := by
      intro q
      by_cases h : q.id = pid <;> simp [h]
    refine ⟨?_, ?_, ?_, hD, ?_, ?_, ?_, hH⟩
    · exact distinctBy_map _ _ _ hid _ hA
    · intro q' hq'
      obtain ⟨q, hq, rfl⟩ := List.mem_map.mp hq'
      rw [hid q]
      exact Nat.lt_trans (hB q hq) (show s.nextId < s.nextId + 1 by omega)
    · intro m hm
      rcases List.mem_append.mp hm with hm | hm
      · exact Nat.lt_trans (hC m hm) (show s.nextId < s.nextId + 1 by omega)
      · rcases List.mem_singleton.mp hm with rfl
        have := hB p hpmem
        dsimp only
        omega
    · intro o ho
      exact Nat.lt_trans (hE o ho) (show s.nextId < s.nextId + 1 by omega)
    · intro oi hoi
      obtain ⟨ho, q, hq, hqid⟩ := hF oi hoi
      exact ⟨ho, _, List.mem_map_of_mem _ hq, by rw [hid q]; exact hqid⟩
    · intro q' hq'
      obtain ⟨q, hq, rfl⟩ := List.mem_map.mp hq'
      rw [movementSum_append]
      by_cases hcase : q.id = pid
      · have hqp : q = p :=
          mem_key_find_unique (fun a : Product => a.id) s.products hA p q pid hfind hq hcase
        subst hqp
        have hbeq : (pid == q.id) = true := beq_iff_eq.mpr hcase.symm
        simp only [hcase, beq_self_eq_true, if_true, movementSum, hbeq]
        rw [← hcase]
        have := hG q hq
        omega
      · have hbeq1 : (q.id == pid) = false := beq_eq_false_iff_ne.mpr hcase
        have hbeq2 : (pid == q.id) = false := beq_eq_false_iff_ne.mpr (Ne.symm hcase)
        simp [hbeq1, hbeq2, movementSum]
        have := hG q hq
        omega

theorem WF_create_order (s : State) (items : List ItemInput) (hw : WF s) :
    WF (create_order s items).2 := by
  obtain ⟨hA, hB, hC, hD, hE, hF, hG, hH⟩ := hw
  cases hval : validate s.products items with
  | some e =>
    rw [create_order_error s items e hval]
    exact ⟨hA, hB, hC, hD, hE, hF, hG, hH⟩
  | none =>
    rw [create_order_eq s items hval]
    dsimp only
    have hid : ∀ q : Product, ({ q with stock := q.stock - qtyFor items q.id } : Product).id = q.id :=
      fun q => rfl
    have hnext : s.nextId < s.nextId + 1 + 2 * items.length := by omega
    refine ⟨?_, ?_, ?_, ?_, ?_, ?_, ?_, ?_⟩
    · exact distinctBy_map _ _ _ hid _ hA
    · intro q' hq'
      obtain ⟨q, hq, rfl⟩ := List.mem_map.mp hq'
      exact Nat.lt_trans (hB q hq) hnext
    · intro m hm
      rcases List.mem_append.mp hm with hm | hm
      · exact Nat.lt_trans (hC m hm) hnext
      · obtain ⟨⟨it, hit, hmid, _⟩, _, _⟩ := mem_newMovementsFor s.now items (s.nextId + 1) m hm
        obtain ⟨p, hf, _⟩ := validate_none_forall s.products items hval it hit
        have hpmem : p ∈ s.products := List.mem_of_find?_eq_some hf
        have hpid : p.id = it.product_id := by simpa using List.find?_some hf
        rw [hmid, ← hpid]
        exact Nat.lt_trans (hB p hpmem) hnext
    · refine distinctBy_append_singleton _ _ _ hD ?_
      intro o ho
      exact Nat.ne_of_lt (hE o ho)
    · intro o ho
      rcases List.mem_append.mp ho with ho | ho
      · exact Nat.lt_trans (hE o ho) hnext
      · rcases List.mem_singleton.mp ho with rfl
        dsimp only
        omega
    · intro oi hoi
      rcases List.mem_append.mp hoi with hoi | hoi
      · obtain ⟨⟨o, ho, hoid⟩, q, hq, hqid⟩ := hF oi hoi
        exact ⟨⟨o, List.mem_append_left _ ho, hoid⟩,
          _, List.mem_map_of_mem _ hq, by rw [hid q]; exact hqid⟩
      · obtain ⟨hoid, it, hit, hpidv⟩ := mem_newItemsFor s.products s.nextId items (s.nextId + 1) oi hoi
        obtain ⟨p, hf, _⟩ := validate_none_forall s.products items hval it hit
        have hpmem : p ∈ s.products := List.mem_of_find?_eq_some hf
        have hpid : p.id = it.product_id := by simpa using List.find?_some hf
        refine ⟨⟨⟨s.nextId, s.now, itemsTotal s.products items⟩,
          List.mem_append_right _ (List.mem_singleton.mpr rfl), hoid.symm⟩,
          _, List.mem_map_of_mem _ hpmem, ?_⟩
        rw [hid p, hpid, hpidv]
    · intro q' hq'
      obtain ⟨q, hq, rfl⟩ := List.mem_map.mp hq'
      rw [movementSum_append, movementSum_newMovementsFor]
      dsimp only
      have := hG q hq
      omega
    · rw [ordersTotal_append, itemsRevenue_append, itemsRevenue_newItemsFor]
      dsimp only
      rw [hH]

theorem WF_applyOp (s : State) (op : Op) (hw : WF s) : WF (applyOp s op) := by
  cases op with
  | addProduct name price cost_price stock notes image_path =>
    exact WF_add_product s name price cost_price stock notes image_path hw
  | adjustStock pid d r => exact WF_add_stock_movement s pid d r hw
  | placeOrder items => exact WF_create_order s items hw

theorem WF_runOps_from (ops : List Op) :
    ∀ (s : State), WF s → WF (runOps s ops) := by
  induction ops with
  | nil => intro s hw; exact hw
  | cons op rest ih =>
    intro s hw
    exact ih (applyOp s op) (WF_applyOp s op hw)

theorem WF_runOps (ops : List Op) : WF (runOps emptyState ops) :=
  WF_runOps_from ops emptyState WF_emptyState

/-! ### A passing prefix does not affect validation -/

theorem validate_append_passing (products0 : List Product) :
    ∀ (pre l : List ItemInput),
      (∀ x ∈ pre, ∃ p, findProduct products0 x.product_id = some p ∧ ¬ p.stock < x.qty) →
      validate products0 (pre ++ l) = validate products0 l := by
  intro pre
  induction pre with
  | nil => intro l _; rfl
  | cons x rest ih =>
    intro l h
    obtain ⟨p, hf, hq⟩ := h x (List.mem_cons_self x rest)
    rw [List.cons_append, validate_cons_some products0 x (rest ++ l) p hf hq]
    exact ih l (fun y hy => h y (List.mem_cons_of_mem x hy))

/-! ### qtyFor under duplicate-free item lists -/

theorem qtyFor_eq_zero (pid : Nat) :
    ∀ (items : List ItemInput), (∀ it ∈ items, it.product_id ≠ pid) →
      qtyFor items pid = 0 := by
  intro items
  induction items with
  | nil => intro _; rfl
  | cons x rest ih =>
    intro h
    have hx : (x.product_id == pid) = false :=
      beq_eq_false_iff_ne.mpr (h x (List.mem_cons_self x rest))
    rw [qtyFor, hx, ih (fun it hit => h it (List.mem_cons_of_mem x hit))]
    simp

theorem qtyFor_of_nodup :
    ∀ (items : List ItemInput), (items.map (fun it => it.product_id)).Nodup →
      ∀ it ∈ items, qtyFor items it.product_id = it.qty := by
  intro items
  induction items with
  | nil => intro _ it hit; cases hit
  | cons x rest ih =>
    intro hnd it hit
    have hnd1 : ∀ y ∈ rest, y.product_id ≠ x.product_id := by
      have h1 := hnd
      simp only [List.map_cons, List.nodup_cons, List.mem_map] at h1
      intro y hy hc
      exact h1.1 ⟨y, hy, hc⟩
    have hnd2 : (rest.map (fun it => it.product_id)).Nodup := by
      have h1 := hnd
      simp only [List.map_cons, List.nodup_cons] at h1
      exact h1.2
    rcases List.mem_cons.mp hit with rfl | hit
    · rw [qtyFor, beq_self_eq_true, if_pos rfl]
      have hz : qtyFor rest it.product_id = 0 :=
        qtyFor_eq_zero it.product_id rest hnd1
      omega
    · have hx : (x.product_id == it.product_id) = false :=
        beq_eq_false_iff_ne.mpr (Ne.symm (hnd1 it hit))
      rw [qtyFor, hx]
      rw [ih hnd2 it hit]
      simp

theorem filter_map_of_fix {α : Type} (key : α → Nat) (v : Nat) (f : α → α)
    (hfix : ∀ a, key a ≠ v → f a = a) (hkey : ∀ a, key (f a) = key a) :
    ∀ (l : List α), (l.map f).filter (fun a => key a != v) = l.filter (fun a => key a != v) := by
  intro l
  induction l with
  | nil => rfl
  | cons a as ih =>
    simp only [List.map_cons, List.filter_cons, hkey a]
    by_cases h : key a = v
    · have hb : (key a != v) = false := by simp [h]
      simp only [hb, Bool.false_eq_true, if_false]
      exact ih
    · have hb : (key a != v) = true := by simp [h]
      simp only [hb, if_true]
      rw [hfix a h, ih]

/-! ### The claims -/

/-- C4: `add_product` with a non-negative initial stock inserts exactly one
product row whose stock is the initial stock itself (not twice it), records
exactly one ledger row with change equal to the initial stock and reason
"Initial / Import" through the ledger-only path that skips the stock
write-back, and returns the fresh product id together with the name. -/
theorem add_product_initial_stock_spec (s : State) (name : String)
    (price cost_price : Rat) (stock : Int) (notes image_path : String)
    (_hs : 0 ≤ stock) :
    add_product s name price cost_price stock notes image_path =
      ((s.nextId, name),
       { s with
          products := s.products ++
            [⟨s.nextId, name, price, cost_price, stock, image_path, notes⟩],
          stock_movements := s.stock_movements ++
            [⟨s.nextId + 1, s.nextId, stock, "Initial / Import", s.now⟩],
          nextId := s.nextId + 2,
          now := s.now + 1 }) :=
  add_product_eq s name price cost_price stock notes image_path

/-- Witness for C4 at the spec's concrete scenario: adding Shirt with stock 10
to the empty store yields stock 10 and one seeding movement of +10. -/
theorem add_product_initial_stock_spec_witness :
    (0 : Int) ≤ 10 ∧
    add_product emptyState "Shirt" 100 60 10 "" "" =
      ((0, "Shirt"),
       ⟨[⟨0, "Shirt", 100, 60, 10, "", ""⟩], [], [],
        [⟨1, 0, 10, "Initial / Import", 0⟩], 2, 1⟩) := by
  refine ⟨by decide, ?_⟩
  have h := add_product_initial_stock_spec emptyState "Shirt" 100 60 10 "" "" (by decide)
  simpa [emptyState] using h

/-- C6: `add_stock_movement` on its default (non-skipping) path: when the
product exists, it sets that product's stock to current stock plus the delta
(negative deltas included, with no floor), appends exactly one movement row
carrying the delta and the reason, and returns the fresh movement id; when
the product does not exist it raises NotFound and leaves the state unchanged. -/
theorem adjust_stock_spec (s : State) (pid : Nat) (d : Int) (r : String) :
    (∀ p, findProduct s.products pid = some p →
      add_stock_movement s pid d r false =
        (.ok s.nextId,
         { s with
            products := s.products.map (fun q =>
              if q.id == pid then { q with stock := p.stock + d } else q),
            stock_movements := s.stock_movements ++ [⟨s.nextId, pid, d, r, s.now⟩],
            nextId := s.nextId + 1,
            now := s.now + 1 })) ∧
    (findProduct s.products pid = none →
      add_stock_movement s pid d r false = (.error (.notFound pid), s)) :=
  ⟨fun p h => add_stock_movement_found s pid d r p h,
   fun h => add_stock_movement_none s pid d r false h⟩

/-- Witness for C6 at the spec's concrete scenario: adjusting the Shirt at
stock 7 by -2 with reason "Damaged" yields stock 5 and one -2 movement. -/
theorem adjust_stock_spec_witness :
    add_stock_movement sevenState 0 (-2) "Damaged" false =
      (.ok 1,
       ⟨[⟨0, "Shirt", 100, 60, 5, "", ""⟩], [], [],
        [⟨1, 0, -2, "Damaged", 4⟩], 2, 5⟩) := by
  have h := (adjust_stock_spec sevenState 0 (-2) "Damaged").1
    ⟨0, "Shirt", 100, 60, 7, "", ""⟩ rfl
  simpa [sevenState] using h

/-- C7: `update_product` never touches any stock, never writes a movement, and
leaves orders, order lines and every other product row untouched: only the
name, price, cost_price, notes and image reference of the addressed product
may change. -/
theorem update_product_frame_spec (s : State) (pid : Nat) (name : String)
    (price cost_price : Rat) (notes : String) (image_file : Option String)
    (remove_image : Bool) :
    ((update_product s pid name price cost_price notes image_file remove_image).2.orders
        = s.orders) ∧
    ((update_product s pid name price cost_price notes image_file remove_image).2.order_items
        = s.order_items) ∧
    ((update_product s pid name price cost_price notes image_file remove_image).2.stock_movements
        = s.stock_movements) ∧
    ((update_product s pid name price cost_price notes image_file remove_image).2.products.map
        (fun p => (p.id, p.stock)) = s.products.map (fun p => (p.id, p.stock))) ∧
    ((update_product s pid name price cost_price notes image_file remove_image).2.products.filter
        (fun p => p.id != pid) = s.products.filter (fun p => p.id != pid)) := by
  cases hf : findProduct s.products pid with
  | none => simp [update_product, hf]
  | some p =>
    simp only [update_product, hf]
    refine ⟨trivial, trivial, trivial, ?_, ?_⟩
    · rw [List.map_map]
      apply map_ext_of
      intro q _
      by_cases h : q.id = pid <;> simp [Function.comp, h]
    · apply filter_map_of_fix
      · intro a ha
        have hb : (a.id == pid) = false := beq_eq_false_iff_ne.mpr ha
        simp [hb]
      · intro a
        by_cases h : a.id = pid <;> simp [h]

/-- C10: `create_order` on an empty items list does not fail: it writes one
order header with total 0 sharing the call's timestamp, no order lines, no
movements, and leaves every product untouched, returning the fresh id and 0. -/
theorem order_empty_items_spec (s : State) :
    create_order s [] =
      (.ok (s.nextId, 0),
       { s with
          orders := s.orders ++ [⟨s.nextId, s.now, 0⟩],
          nextId := s.nextId + 1,
          now := s.now + 1 }) := by
  simp [create_order, validate, processItems, fresh, tick]

/-- C3: a pre-validated order succeeds and, in input order, decrements each
product's stock by the requested quantity, appends exactly one order line per
item snapshotting the product's current price and cost price, appends exactly
one "Sale" movement per item with change equal to minus the quantity, stamps
every one of those movements and the order header with the one shared
order-creation instant, writes the header with total equal to the sum of
price times quantity over the items, and returns the fresh order id and that
total. -/
theorem order_success_effects (s : State) (items : List ItemInput)
    (h : validate s.products items = none) :
    create_order s items =
      (.ok (s.nextId, itemsTotal s.products items),
       { s with
          products := s.products.map (fun q =>
            { q with stock := q.stock - qtyFor items q.id }),
          orders := s.orders ++ [⟨s.nextId, s.now, itemsTotal s.products items⟩],
          order_items := s.order_items ++ newItemsFor s.products s.nextId items (s.nextId + 1),
          stock_movements := s.stock_movements ++ newMovementsFor s.now items (s.nextId + 1),
          nextId := s.nextId + 1 + 2 * items.length,
          now := s.now + 1 }) ∧
    (newItemsFor s.products s.nextId items (s.nextId + 1)).length = items.length ∧
    (newMovementsFor s.now items (s.nextId + 1)).length = items.length ∧
    (∀ oi ∈ newItemsFor s.products s.nextId items (s.nextId + 1),
      oi.order_id = s.nextId ∧ ∃ it ∈ items, oi.product_id = it.product_id) ∧
    (∀ m ∈ newMovementsFor s.now items (s.nextId + 1),
      (∃ it ∈ items, m.product_id = it.product_id ∧ m.change = -it.qty) ∧
        m.reason = "Sale" ∧ m.timestamp = s.now) :=
  ⟨create_order_eq s items h,
   length_newItemsFor s.products s.nextId items (s.nextId + 1),
   length_newMovementsFor s.now items (s.nextId + 1),
   fun oi hoi => mem_newItemsFor s.products s.nextId items (s.nextId + 1) oi hoi,
   fun m hm => mem_newMovementsFor s.now items (s.nextId + 1) m hm⟩

/-- Witness for C3 at the spec's concrete scenario: selling 3 Shirts from the
freshly seeded store leaves stock 7, one line (qty 3, price 100, cost 60),
one -3 "Sale" movement, and an order header with total 300, all stamped with
the same instant. -/
theorem order_success_effects_witness :
    validate sampleStore.products [⟨0, 3⟩] = none ∧
    create_order sampleStore [⟨0, 3⟩] =
      (.ok (2, 300),
       ⟨[⟨0, "Shirt", 100, 60, 7, "", ""⟩], [⟨2, 1, 300⟩],
        [⟨3, 2, 0, 3, 100, 60⟩],
        [⟨1, 0, 10, "Initial / Import", 0⟩, ⟨4, 0, -3, "Sale", 1⟩], 5, 2⟩) := by
  have h := (order_success_effects sampleStore [⟨0, 3⟩] rfl).1
  have htot : itemsTotal sampleStore.products [(⟨0, 3⟩ : ItemInput)] = 300 := by
    simp [itemsTotal, priceOf, findProduct, List.find?, sampleStore]
    norm_num
  rw [htot] at h
  refine ⟨rfl, ?_⟩
  rw [h]
  simp [sampleStore, newItemsFor, newMovementsFor, priceOf, costOf, findProduct,
    List.find?, qtyFor]

/-- C2 counterexample: with product 0 ("P", stock 1) the items list
[(0, qty 5), (1, qty 2)] contains an item referencing the non-existent
product 1, yet `create_order` raises InsufficientStock (for the earlier
failing item), not NotFound — so "if any item references a non-existent
product it raises NotFoundError" is false as stated.  The state is still
left unchanged. -/
theorem order_validation_error_kind_counterexample :
    (∃ it ∈ [(⟨0, 5⟩ : ItemInput), ⟨1, 2⟩],
      findProduct mixedState.products it.product_id = none) ∧
    create_order mixedState [⟨0, 5⟩, ⟨1, 2⟩] =
      (.error (.insufficientStock "P" 1 5), mixedState) ∧
    (∀ pid, (create_order mixedState [⟨0, 5⟩, ⟨1, 2⟩]).1 ≠ .error (.notFound pid)) := by
  have hval : validate mixedState.products [(⟨0, 5⟩ : ItemInput), ⟨1, 2⟩] =
      some (.insufficientStock "P" 1 5) := rfl
  have hco := create_order_error mixedState [⟨0, 5⟩, ⟨1, 2⟩] _ hval
  refine ⟨⟨⟨1, 2⟩, by simp, rfl⟩, hco, ?_⟩
  intro pid h
  rw [hco] at h
  simp at h

/-- C2 amended: `create_order` validates all items against the loaded
snapshot before any mutation, scanning in input order, and the first failing
item determines the error: when every earlier item passes (its product exists
and its qty is at most the stock), an item referencing a missing product
makes the call raise NotFound with that product id, and an item whose qty
exceeds its product's stock makes it raise InsufficientStock carrying the
product's name, available stock and requested qty; in both cases the entire
state (stocks, orders, order lines, movements, counters) is returned
unchanged. -/
theorem order_prevalidation_no_mutation (s : State) (pre : List ItemInput)
    (it : ItemInput) (rest : List ItemInput)
    (hok : ∀ x ∈ pre, ∃ p, findProduct s.products x.product_id = some p ∧
      ¬ p.stock < x.qty) :
    (findProduct s.products it.product_id = none →
      create_order s (pre ++ it :: rest) = (.error (.notFound it.product_id), s)) ∧
    (∀ p, findProduct s.products it.product_id = some p → p.stock < it.qty →
      create_order s (pre ++ it :: rest) =
        (.error (.insufficientStock p.name p.stock it.qty), s)) := by
  constructor
  · intro hf
    apply create_order_error
    rw [validate_append_passing s.products pre (it :: rest) hok]
    simp [validate, hf]
  · intro p hf hq
    apply create_order_error
    rw [validate_append_passing s.products pre (it :: rest) hok]
    simp [validate, hf, hq]

/-- Witness for C2 (amended), echoing the counterexample input: the first
failing item of `[(0, qty 5), (1, qty 2)]` at stock 1 is the insufficient
first item, so InsufficientStock("P", 1, 5) is raised and nothing changes,
even though the second item's product does not exist. -/
theorem order_prevalidation_no_mutation_witness :
    (∀ x ∈ ([] : List ItemInput), ∃ p,
      findProduct mixedState.products x.product_id = some p ∧ ¬ p.stock < x.qty) ∧
    findProduct mixedState.products 0 = some ⟨0, "P", 100, 60, 1, "", ""⟩ ∧
    ((1 : Int) < 5) ∧
    create_order mixedState ([] ++ (⟨0, 5⟩ : ItemInput) :: [⟨1, 2⟩]) =
      (.error (.insufficientStock "P" 1 5), mixedState) := by
  have hok : ∀ x ∈ ([] : List ItemInput), ∃ p,
      findProduct mixedState.products x.product_id = some p ∧ ¬ p.stock < x.qty :=
    fun x hx => absurd hx (List.not_mem_nil x)
  refine ⟨hok, rfl, by decide, ?_⟩
  exact (order_prevalidation_no_mutation mixedState [] ⟨0, 5⟩ [⟨1, 2⟩] hok).2
    ⟨0, "P", 100, 60, 1, "", ""⟩ rfl (by decide)

/-- C5 counterexample: with product 0 ("P") at stock 3, the order
[(0, qty 2), (0, qty 2)] passes pre-validation (each item is checked against
the same pre-order snapshot), is accepted, and drives the stock to -1 — so
"the stock of every product after the order completes is still non-negative,
including when the same product_id appears in more than one item" is false. -/
theorem order_duplicate_items_oversell_counterexample :
    (∀ p ∈ dupState.products, 0 ≤ p.stock) ∧
    create_order dupState [⟨0, 2⟩, ⟨0, 2⟩] =
      (.ok (1, 400),
       ⟨[⟨0, "P", 100, 60, -1, "", ""⟩], [⟨1, 0, 400⟩],
        [⟨2, 1, 0, 2, 100, 60⟩, ⟨4, 1, 0, 2, 100, 60⟩],
        [⟨3, 0, -2, "Sale", 0⟩, ⟨5, 0, -2, "Sale", 0⟩], 6, 1⟩) ∧
    (∃ p ∈ (create_order dupState [⟨0, 2⟩, ⟨0, 2⟩]).2.products, p.stock < 0) := by
  have h := create_order_eq dupState [⟨0, 2⟩, ⟨0, 2⟩] rfl
  have htot : itemsTotal dupState.products [(⟨0, 2⟩ : ItemInput), ⟨0, 2⟩] = 400 := by
    simp [itemsTotal, priceOf, findProduct, List.find?, dupState]
    norm_num
  rw [htot] at h
  have hco : create_order dupState [⟨0, 2⟩, ⟨0, 2⟩] =
      (.ok (1, 400),
       ⟨[⟨0, "P", 100, 60, -1, "", ""⟩], [⟨1, 0, 400⟩],
        [⟨2, 1, 0, 2, 100, 60⟩, ⟨4, 1, 0, 2, 100, 60⟩],
        [⟨3, 0, -2, "Sale", 0⟩, ⟨5, 0, -2, "Sale", 0⟩], 6, 1⟩) := by
    rw [h]
    simp [dupState, newItemsFor, newMovementsFor, priceOf, costOf, findProduct,
      List.find?, qtyFor]
  refine ⟨by decide, hco, ?_⟩
  rw [hco]
  exact ⟨⟨0, "P", 100, 60, -1, "", ""⟩, List.mem_singleton.mpr rfl, by decide⟩

/-- C5 amended: when the product rows have distinct ids, every stock is
non-negative, and each product_id appears in at most one item of the list,
any order accepted by `create_order` leaves every stock non-negative.  (With
duplicate product ids in the items list the guarantee fails, because each
item is validated against the same pre-order snapshot.) -/
theorem order_nonneg_stock_of_distinct_items (s : State) (items : List ItemInput)
    (hdis : distinctBy (fun p : Product => p.id) s.products)
    (hpos : ∀ p ∈ s.products, 0 ≤ p.stock)
    (hnd : (items.map (fun it => it.product_id)).Nodup)
    (hval : validate s.products items = none) :
    ∀ p ∈ (create_order s items).2.products, 0 ≤ p.stock := by
  rw [create_order_eq s items hval]
  dsimp only
  intro q' hq'
  obtain ⟨q, hq, rfl⟩ := List.mem_map.mp hq'
  dsimp only
  by_cases hc : ∃ it ∈ items, it.product_id = q.id
  · obtain ⟨it, hit, hpid⟩ := hc
    rw [← hpid, qtyFor_of_nodup items hnd it hit]
    obtain ⟨p, hf, hqty⟩ := validate_none_forall s.products items hval it hit
    have hqp : q = p :=
      mem_key_find_unique (fun a : Product => a.id) s.products hdis p q
        it.product_id hf hq hpid.symm
    subst hqp
    have := hpos q hq
    omega
  · push_neg at hc
    rw [qtyFor_eq_zero q.id items hc]
    have := hpos q hq
    omega

/-- Witness for C5 (amended): ordering 3 of product A and 2 of product B
(distinct ids, stocks 4 and 2) is accepted and leaves both stocks at least 0. -/
theorem order_nonneg_stock_of_distinct_items_witness :
    distinctBy (fun p : Product => p.id) twoState.products ∧
    (∀ p ∈ twoState.products, 0 ≤ p.stock) ∧
    (([(⟨0, 3⟩ : ItemInput), ⟨1, 2⟩].map (fun it => it.product_id)).Nodup) ∧
    validate twoState.products [⟨0, 3⟩, ⟨1, 2⟩] = none ∧
    ∀ p ∈ (create_order twoState [⟨0, 3⟩, ⟨1, 2⟩]).2.products, 0 ≤ p.stock := by
  have h1 : distinctBy (fun p : Product => p.id) twoState.products := by
    simp [distinctBy, twoState]
  have h2 : ∀ p ∈ twoState.products, 0 ≤ p.stock := by decide
  have h3 : (([(⟨0, 3⟩ : ItemInput), ⟨1, 2⟩].map (fun it => it.product_id)).Nodup) := by
    simp
  exact ⟨h1, h2, h3, rfl,
    order_nonneg_stock_of_distinct_items twoState [⟨0, 3⟩, ⟨1, 2⟩] h1 h2 h3 rfl⟩

/-- C1: in every state reachable from the empty store by add_product,
add_stock_movement (default path) and create_order, every product's stock
equals the sum of the `change` values of the movements recorded for it (the
seeding movement written by add_product makes the initial stock part of that
sum). -/
theorem ledger_invariant_reachable (ops : List Op) :
    ∀ p ∈ (runOps emptyState ops).products,
      p.stock = movementSum (runOps emptyState ops).stock_movements p.id :=
  fun p hp => (WF_runOps ops).2.2.2.2.2.2.1 p hp

/-- Witness for C1: after seeding Shirt with stock 10 and recording a -2
"Damaged" adjustment, the stock is 8 and the ledger sums to 10 - 2 = 8. -/
theorem ledger_invariant_reachable_witness :
    (⟨0, "Shirt", 100, 60, 8, "", ""⟩ : Product) ∈ (runOps emptyState opsSample).products ∧
    (8 : Int) = movementSum (runOps emptyState opsSample).stock_movements 0 := by
  have hrun : runOps emptyState opsSample =
      ⟨[⟨0, "Shirt", 100, 60, 8, "", ""⟩], [], [],
       [⟨1, 0, 10, "Initial / Import", 0⟩, ⟨2, 0, -2, "Damaged", 1⟩], 3, 2⟩ := by
    have h1 : applyOp emptyState (.addProduct "Shirt" 100 60 10 "" "") =
        ⟨[⟨0, "Shirt", 100, 60, 10, "", ""⟩], [], [],
         [⟨1, 0, 10, "Initial / Import", 0⟩], 2, 1⟩ := by
      rw [applyOp, add_product_eq]
      simp [emptyState]
    have h2 : add_stock_movement
        (⟨[⟨0, "Shirt", 100, 60, 10, "", ""⟩], [], [],
          [⟨1, 0, 10, "Initial / Import", 0⟩], 2, 1⟩ : State) 0 (-2) "Damaged" false =
        (.ok 2,
         ⟨[⟨0, "Shirt", 100, 60, 8, "", ""⟩], [], [],
          [⟨1, 0, 10, "Initial / Import", 0⟩, ⟨2, 0, -2, "Damaged", 1⟩], 3, 2⟩) := by
      rw [add_stock_movement_found
        (⟨[⟨0, "Shirt", 100, 60, 10, "", ""⟩], [], [],
          [⟨1, 0, 10, "Initial / Import", 0⟩], 2, 1⟩ : State) 0 (-2) "Damaged"
        ⟨0, "Shirt", 100, 60, 10, "", ""⟩ rfl]
      simp
    show runOps emptyState opsSample = _
    rw [opsSample, runOps, List.foldl, List.foldl, List.foldl, h1, applyOp, h2]
  have hmem : (⟨0, "Shirt", 100, 60, 8, "", ""⟩ : Product) ∈
      (runOps emptyState opsSample).products := by
    rw [hrun]
    exact List.mem_singleton.mpr rfl
  exact ⟨hmem, ledger_invariant_reachable opsSample _ hmem⟩

/-- C8 is a code bug: the first half of the cross-check holds — in every
reachable state the sum of the denormalized order totals equals the sum of
qty times price over the order lines — but the reporting side is never
computed: the statistics pipeline raises KeyError for 'cost_price_item' at
line 671, before the `total_revenue` sum of line 681 is ever reached (a
`none` result would mean every read up to and including it succeeded). -/
theorem order_totals_agree_report_key_error :
    (∀ ops : List Op, ordersTotal (runOps emptyState ops).orders =
      itemsRevenue (runOps emptyState ops).order_items) ∧
    statsPipeline = some "cost_price_item" :=
  ⟨fun ops => (WF_runOps ops).2.2.2.2.2.2.2, by decide⟩

/-- C9 is a code bug: the snapshotted cost the aggregator is meant to read
(the comment at src/quanao.py line 670 says so) does exist in `df_merged`,
but under the name cost_price_merged — the second merge's suffixes are
('_merged', '_product') — while line 671 reads 'cost_price_item'; so on any
state with an order the statistics page raises KeyError and computes no line
cost, no profit and no rollup at all. -/
theorem report_cost_column_key_error :
    "cost_price_merged" ∈ dfMergedColumns ∧
    "cost_price_item" ∉ dfMergedColumns ∧
    reportStats (create_order sampleStore [⟨0, 3⟩]).2 = some "cost_price_item" := by
  refine ⟨by decide, by decide, ?_⟩
  rw [create_order_eq sampleStore [⟨0, 3⟩] rfl]
  rfl

end Quanao
